import Mathlib

/-!
Verification of the ELP edge-detection core (Go sources).

The embedding models the Go code over grids `List (List α)` (row-major 2D
slices).  Runtime panics (index out of range, integer division by zero) and
non-finite float results are modelled by `Option`: a call that panics or can
only produce NaN/Inf returns `none`.  Floating-point values are modelled by
`ℚ`; the per-cell arithmetic of sequential and parallel convolution is kept
polymorphic in the scalar type with uninterpreted `+`/`*`/`0` so that
equality theorems also capture bit-identity of IEEE float results (both
sides perform the same operations in the same order).  `math.Sqrt` is an
uninterpreted parameter `sqrtF : ℚ → ℚ`.
-/

namespace ELP

/-- A 2D slice-of-slices as in the Go sources (`[][]float64`). -/
abbrev Grid (α : Type) : Type := List (List α)

/-- Checked 2D read `g[i][j]`: `none` models a Go index-out-of-range panic. -/
def get2? {α : Type} (g : Grid α) (i j : ℕ) : Option α :=
  (g.get? i).bind fun r => r.get? j

/-- Total 2D read with default `0`, used where the Grid invariant
(rectangularity) keeps the access in bounds. -/
def get2D {α : Type} [Zero α] (g : Grid α) (i j : ℕ) : α :=
  (g.getD i []).getD j 0

/-- The Grid invariant of the spec: `h` rows, every row of length `w`. -/
def Rectangular {α : Type} (g : Grid α) (h w : ℕ) : Prop :=
  g.length = h ∧ ∀ r ∈ g, r.length = w

instance {α : Type} (g : Grid α) (h w : ℕ) : Decidable (Rectangular g h w) := by
  unfold Rectangular; infer_instance

/-- Write `g[i][j] = v`; out-of-range writes are silently dropped (they never
happen in the modelled code paths, which write inside freshly allocated
buffers of known size). -/
def set2 {α : Type} (g : Grid α) (i j : ℕ) (v : α) : Grid α :=
  g.set i ((g.getD i []).set j v)

/-- `make([][]float64, h)` with each row `make([]float64, w)`: zero-filled. -/
def zeroGrid {α : Type} [Zero α] (h w : ℕ) : Grid α :=
  List.replicate h (List.replicate w 0)

/-- Row-major tabulation: the `h × w` grid whose cell `(i, j)` is `f i j`. -/
def tab {α : Type} (h w : ℕ) (f : ℕ → ℕ → α) : Grid α :=
  (List.range h).map fun i => (List.range w).map fun j => f i j

/-- Monadic map over a list in the `Option` monad (structural, evaluation in
list order); `none` propagates like a panic. -/
def mapO {α β : Type} (f : α → Option β) : List α → Option (List β)
  | [] => some []
  | a :: l =>
    match f a, mapO f l with
    | some b, some bs => some (b :: bs)
    | _, _ => none

/-- Monadic left fold over a list in the `Option` monad. -/
def foldlO {α β : Type} (f : β → α → Option β) : β → List α → Option β
  | b, [] => some b
  | b, a :: l =>
    match f b a with
    | some b2 => foldlO f b2 l
    | none => none

section Conv

variable {α : Type} [Zero α] [Add α] [Mul α]

/-- Zero padding, `src/Go/main.go` lines 21–31 and `src/unnamed/part_000`
lines 65–75 (the two copies are textually identical): allocate a zero grid of
size `(height+2·padHeight) × (width+2·padWidth)`, then for each `i < height`,
`j < width` write `paddedImage[i+padHeight][j+padWidth] = image[i][j]`.
The read `image[i][j]` is checked: a ragged image panics in Go. -/
def padGrid (image : Grid α) (height width padHeight padWidth : ℕ) :
    Option (Grid α) :=
  foldlO
    (fun acc i =>
      foldlO
        (fun acc2 j =>
          match get2? image i j with
          | some v => some (set2 acc2 (i + padHeight) (j + padWidth) v)
          | none => none)
        acc (List.range width))
    (zeroGrid (height + 2 * padHeight) (width + 2 * padWidth))
    (List.range height)

/-- One output cell, `src/Go/main.go` lines 42–47 and `src/unnamed/part_000`
lines 105–110 (identical loop bodies): `sum := 0.0` then
`sum += paddedImage[i+ii][j+jj] * kernel[ii][jj]` for `ii < kHeight`,
`jj < kWidth`, in row-major loop order.  Both reads are checked. -/
def sumCell (paddedImage kernel : Grid α) (kHeight kWidth i j : ℕ) :
    Option α :=
  foldlO
    (fun acc ii =>
      foldlO
        (fun acc2 jj =>
          match get2? paddedImage (i + ii) (j + jj), get2? kernel ii jj with
          | some p, some k => some (acc2 + p * k)
          | _, _ => none)
        acc (List.range kWidth))
    0 (List.range kHeight)

/-- Sequential convolution, `src/Go/main.go` lines 12–53 (identical to
`src/Javascript/main.go` lines 13–54).  `len(image[0])` and `len(kernel[0])`
panic on an empty image or kernel. -/
def convolve (image kernel : Grid α) : Option (Grid α) :=
  let height := image.length
  match image.get? 0 with
  | none => none
  | some row0 =>
    let width := row0.length
    let kHeight := kernel.length
    match kernel.get? 0 with
    | none => none
    | some krow0 =>
      let kWidth := krow0.length
      let padHeight := kHeight / 2
      let padWidth := kWidth / 2
      match padGrid image height width padHeight padWidth with
      | none => none
      | some paddedImage =>
        mapO
          (fun i =>
            mapO (fun j => sumCell paddedImage kernel kHeight kWidth i j)
              (List.range width))
          (List.range height)

/-- `startRow := workerID * rowsPerWorker`, `src/unnamed/part_000` line 95. -/
def workerStart (rowsPerWorker w : ℕ) : ℕ := w * rowsPerWorker

/-- `endRow := startRow + rowsPerWorker`, overridden to `height` for the last
worker, `src/unnamed/part_000` lines 96–101. -/
def workerEnd (height numWorkers rowsPerWorker w : ℕ) : ℕ :=
  if w = numWorkers - 1 then height else w * rowsPerWorker + rowsPerWorker

/-- The final channel phase, `src/unnamed/part_000` lines 126–129: each
received `ConvolveResult` holds the alias `result[startRow:endRow]`, and
`copy(result[startRow:], convResult.Result)` copies those rows onto
themselves.  Modelled as a self-copy of `n` rows starting at `s`. -/
def selfCopy {α : Type} (g : Grid α) (s n : ℕ) : Grid α :=
  (List.range n).foldl (fun d k => d.set (s + k) (d.getD (s + k) [])) g

/-- Parallel convolution, `src/unnamed/part_000` lines 55–132.  Header,
padding and result allocation are as in `convolve`; then
`rowsPerWorker := height / numWorkers` (Go integer division panics on a zero
divisor, modelled as `none`); each worker `w < numWorkers` computes the rows
of its range and writes them into the shared result.  The goroutines write
pairwise-disjoint row ranges (proved below), so running the workers in index
order is a faithful model of any interleaving. -/
def convolveParallel (image kernel : Grid α) (numWorkers : ℕ) :
    Option (Grid α) :=
  let height := image.length
  match image.get? 0 with
  | none => none
  | some row0 =>
    let width := row0.length
    let kHeight := kernel.length
    match kernel.get? 0 with
    | none => none
    | some krow0 =>
      let kWidth := krow0.length
      let padHeight := kHeight / 2
      let padWidth := kWidth / 2
      match padGrid image height width padHeight padWidth with
      | none => none
      | some paddedImage =>
        let result0 : Grid α := zeroGrid height width
        if numWorkers = 0 then none
        else
          let rowsPerWorker := height / numWorkers
          match
            foldlO
              (fun acc w =>
                foldlO
                  (fun acc2 i =>
                    match
                      mapO (fun j => sumCell paddedImage kernel kHeight kWidth i j)
                        (List.range width)
                    with
                    | some row => some (acc2.set i row)
                    | none => none)
                  acc
                  (List.range' (workerStart rowsPerWorker w)
                    (workerEnd height numWorkers rowsPerWorker w -
                      workerStart rowsPerWorker w)))
              result0 (List.range numWorkers)
          with
          | none => none
          | some result =>
            some
              ((List.range numWorkers).foldl
                (fun acc w =>
                  selfCopy acc (workerStart rowsPerWorker w)
                    (workerEnd height numWorkers rowsPerWorker w -
                      workerStart rowsPerWorker w))
                result)

end Conv

/-- Sobel x-kernel, `src/Go/main.go` lines 86–90 / `src/unnamed/part_000`
lines 42–46. -/
def sobelX : Grid ℚ := [[-1, 0, 1], [-2, 0, 2], [-1, 0, 1]]

/-- Sobel y-kernel, `src/Go/main.go` lines 92–96 / `src/unnamed/part_000`
lines 48–52. -/
def sobelY : Grid ℚ := [[-1, -2, -1], [0, 0, 0], [1, 2, 1]]

/-- Magnitude grid, `src/unnamed/part_000` lines 288–292:
`edges[i][j] = math.Sqrt(gx[i][j]*gx[i][j] + gy[i][j]*gy[i][j])`, with
`math.Sqrt` the uninterpreted parameter `sqrtF`. -/
def magnitudeGrid (sqrtF : ℚ → ℚ) (gradientX gradientY : Grid ℚ)
    (height width : ℕ) : Grid ℚ :=
  tab height width fun i j =>
    sqrtF (get2D gradientX i j * get2D gradientX i j +
      get2D gradientY i j * get2D gradientY i j)

/-- The min scan of `src/unnamed/part_000` lines 295–306:
`if edges[i][j] < minValue { minValue = edges[i][j] }` over all cells,
seeded with `edges[0][0]`. -/
def foldMin (g : Grid ℚ) (seed : ℚ) : ℚ :=
  g.foldl (fun acc row => row.foldl (fun m e => if e < m then e else m) acc) seed

/-- The max scan of `src/unnamed/part_000` lines 295–306. -/
def foldMax (g : Grid ℚ) (seed : ℚ) : ℚ :=
  g.foldl (fun acc row => row.foldl (fun m e => if m < e then e else m) acc) seed

/-- Gradient combiner, `src/unnamed/part_000` lines 281–315: magnitude grid,
min/max scan seeded with `edges[0][0]` (a panic on an empty grid), then
`edges[i][j] = 255 * (edges[i][j] - minValue) / (maxValue - minValue)`.
The source divides with no guard; in float64 a zero divisor makes every cell
`0/0 = NaN` (or `±Inf`), i.e. no finite grid results: modelled as `none`. -/
def combineAndNormalize (sqrtF : ℚ → ℚ) (gradientX gradientY : Grid ℚ) :
    Option (Grid ℚ) :=
  let height := gradientX.length
  match gradientX.get? 0 with
  | none => none
  | some row0 =>
    let width := row0.length
    let edges := magnitudeGrid sqrtF gradientX gradientY height width
    match get2? edges 0 0 with
    | none => none
    | some e00 =>
      let minValue := foldMin edges e00
      let maxValue := foldMax edges e00
      if maxValue - minValue = 0 then none
      else
        some (edges.map fun row =>
          row.map fun e => 255 * (e - minValue) / (maxValue - minValue))

/-- Truncation toward zero, the rounding of Go's float-to-integer
conversion. -/
def truncQ (q : ℚ) : ℤ := if q < 0 then ⌈q⌉ else ⌊q⌋

/-- Go's `uint8(f)` for `f float64`: truncate toward zero, then (for values
out of `uint8` range the Go spec leaves the result implementation-defined;
mainstream gc targets keep the low 8 bits of the truncated integer) reduce
modulo 256.  Faithful for truncated values in `[0, 2^63)`. -/
def goUint8 (q : ℚ) : ℤ := truncQ q % 256

/-- Quantization adapter, `src/Javascript/main.go` lines 199–212 (the loop
body equals the per-cell work of `src/unnamed/part_000` lines 246–278):
`gray.SetGray(x, y, color.Gray{uint8(data[y][x])})` into a fresh
`image.NewGray` of the same size; `len(data[0])` panics on an empty grid. -/
def float64ArrayToImage (data : Grid ℚ) : Option (Grid ℤ) :=
  let height := data.length
  match data.get? 0 with
  | none => none
  | some row0 =>
    let width := row0.length
    some (tab height width fun y x => goUint8 (get2D data y x))

section CleanVersions

variable {α : Type} [Zero α] [Add α] [Mul α]

/-- Value of the padded grid at `(i, j)`: the image cell when `(i, j)` lies
in the centered copy, `0` on the border. -/
def padVal (image : Grid α) (height width padHeight padWidth i j : ℕ) : α :=
  if padHeight ≤ i ∧ i < padHeight + height ∧ padWidth ≤ j ∧ j < padWidth + width
  then get2D image (i - padHeight) (j - padWidth) else 0

/-- The padded grid as a directly constructed list (proved below to be what
`padGrid` computes). -/
def padFun (image : Grid α) (height width padHeight padWidth : ℕ) : Grid α :=
  tab (height + 2 * padHeight) (width + 2 * padWidth)
    (padVal image height width padHeight padWidth)

/-- The per-cell sum as a pure left fold (same operation order as
`sumCell`). -/
def sumCellFun (paddedImage kernel : Grid α) (kHeight kWidth i j : ℕ) : α :=
  (List.range kHeight).foldl
    (fun acc ii =>
      (List.range kWidth).foldl
        (fun acc2 jj =>
          acc2 + get2D paddedImage (i + ii) (j + jj) * get2D kernel ii jj)
        acc)
    0

/-- The convolution result as a directly constructed list: the `height × width`
grid of per-cell weighted sums over the padded image. -/
def convGrid (image kernel : Grid α) (height width kHeight kWidth : ℕ) :
    Grid α :=
  tab height width fun i j =>
    sumCellFun (padFun image height width (kHeight / 2) (kWidth / 2))
      kernel kHeight kWidth i j

end CleanVersions

section BasicLemmas

variable {α : Type} [Zero α]

theorem get?_eq_some_getD {β : Type} {l : List β} {i : ℕ} (d : β)
    (hi : i < l.length) : l.get? i = some (l.getD i d) := by
  rw [List.getD_eq_getElem _ _ hi, List.get?_eq_getElem?,
    List.getElem?_eq_getElem hi]

theorem get2?_eq_some {g : Grid α} {i j : ℕ} (hi : i < g.length)
    (hj : j < (g.getD i []).length) : get2? g i j = some (get2D g i j) := by
  unfold get2? get2D
  rw [get?_eq_some_getD [] hi, Option.some_bind, get?_eq_some_getD 0 hj]

theorem rect_rowlen {g : Grid α} {h w : ℕ} (hg : Rectangular g h w) {i : ℕ}
    (hi : i < h) : (g.getD i []).length = w := by
  have hi' : i < g.length := hg.1 ▸ hi
  rw [List.getD_eq_getElem _ _ hi']
  exact hg.2 _ (List.getElem_mem _)

theorem mapO_eq_some {β γ : Type} {f : β → Option γ} {gf : β → γ} :
    ∀ {l : List β}, (∀ a ∈ l, f a = some (gf a)) →
      mapO f l = some (l.map gf) := by
  intro l
  induction l with
  | nil => intro _; rfl
  | cons a l ih =>
    intro h
    have ha := h a (List.mem_cons_self _ _)
    have hl := ih fun b hb => h b (List.mem_cons_of_mem _ hb)
    simp [mapO, ha, hl]

theorem foldlO_eq_some {β γ : Type} {f : γ → β → Option γ} {gf : γ → β → γ} :
    ∀ {l : List β}, (∀ c, ∀ a ∈ l, f c a = some (gf c a)) →
      ∀ c, foldlO f c l = some (l.foldl gf c) := by
  intro l
  induction l with
  | nil => intro _ c; rfl
  | cons a l ih =>
    intro h c
    simp only [foldlO, h c a (List.mem_cons_self _ _), List.foldl_cons]
    exact ih (fun c b hb => h c b (List.mem_cons_of_mem _ hb)) (gf c a)

theorem length_set2 {g : Grid α} {i j : ℕ} {v : α} :
    (set2 g i j v).length = g.length := by
  simp [set2]

theorem getD_set2 (g : Grid α) (i j a : ℕ) (v : α) :
    (set2 g i j v).getD a [] =
      if i = a ∧ a < g.length then (g.getD a []).set j v
      else g.getD a [] := by
  unfold set2
  by_cases hia : i = a
  · subst hia
    by_cases hlt : i < g.length
    · rw [if_pos ⟨rfl, hlt⟩,
        List.getD_eq_getElem _ _ (by simpa using hlt),
        List.getElem_set_self]
    · rw [if_neg (by simp [hlt]),
        List.getD_eq_default _ _ (by simpa using Nat.le_of_not_lt hlt),
        List.getD_eq_default _ _ (Nat.le_of_not_lt hlt)]
  · rw [if_neg (by simp [hia]), List.getD_eq_getD_get?,
      List.get?_set_ne _ _ hia, ← List.getD_eq_getD_get?]

theorem rowlen_set2 (g : Grid α) (i j a : ℕ) (v : α) :
    ((set2 g i j v).getD a []).length = (g.getD a []).length := by
  rw [getD_set2]
  split
  · rw [List.length_set]
  · rfl

theorem get2D_set2_hit {g : Grid α} {i j : ℕ} (hi : i < g.length)
    (hj : j < (g.getD i []).length) (v : α) :
    get2D (set2 g i j v) i j = v := by
  unfold get2D
  rw [getD_set2, if_pos ⟨rfl, hi⟩, List.getD_eq_getD_get?,
    List.get?_set_eq_of_lt _ hj, Option.getD_some]

theorem get2D_set2_miss {g : Grid α} {i j a b : ℕ} {v : α}
    (h : i ≠ a ∨ j ≠ b) : get2D (set2 g i j v) a b = get2D g a b := by
  unfold get2D
  rw [getD_set2]
  by_cases hia : i = a ∧ a < g.length
  · have hjb : j ≠ b := by
      rcases h with h | h
      · exact absurd hia.1 h
      · exact h
    rw [if_pos hia, List.getD_eq_getD_get?, List.get?_set_ne _ _ hjb,
      ← List.getD_eq_getD_get?]
  · rw [if_neg hia]

theorem length_zeroGrid (h w : ℕ) : (zeroGrid (α := α) h w).length = h := by
  simp [zeroGrid]

theorem getD_zeroGrid {h w a : ℕ} :
    (zeroGrid (α := α) h w).getD a [] =
      if a < h then List.replicate w 0 else [] := by
  unfold zeroGrid
  by_cases ha : a < h
  · rw [if_pos ha, List.getD_eq_getElem _ _ (by simpa using ha),
      List.getElem_replicate]
  · rw [if_neg ha, List.getD_eq_default _ _ (by simpa using Nat.le_of_not_lt ha)]

theorem rowlen_zeroGrid {h w a : ℕ} (ha : a < h) :
    ((zeroGrid (α := α) h w).getD a []).length = w := by
  rw [getD_zeroGrid, if_pos ha, List.length_replicate]

theorem get2D_zeroGrid {h w a b : ℕ} : get2D (zeroGrid (α := α) h w) a b = 0 := by
  unfold get2D
  rw [getD_zeroGrid]
  split
  · by_cases hb : b < w
    · rw [List.getD_eq_getElem _ _ (by simpa using hb), List.getElem_replicate]
    · rw [List.getD_eq_default _ _ (by simpa using Nat.le_of_not_lt hb)]
  · rfl

theorem grid_ext {g1 g2 : Grid α} (hl : g1.length = g2.length)
    (hrow : ∀ i, i < g1.length → (g1.getD i []).length = (g2.getD i []).length)
    (hcell : ∀ i j, i < g1.length → j < (g1.getD i []).length →
      get2D g1 i j = get2D g2 i j) : g1 = g2 := by
  apply List.ext_getElem hl
  intro i h1 h2
  apply List.ext_getElem
  · have hr := hrow i h1
    rwa [List.getD_eq_getElem _ _ h1, List.getD_eq_getElem _ _ h2] at hr
  · intro j hj1 hj2
    have hc := hcell i j h1 (by rwa [List.getD_eq_getElem _ _ h1])
    unfold get2D at hc
    rwa [List.getD_eq_getElem _ _ h1, List.getD_eq_getElem _ _ h2,
      List.getD_eq_getElem _ _ hj1, List.getD_eq_getElem _ _ hj2] at hc

end BasicLemmas

section TabLemmas

variable {α : Type} [Zero α]

theorem length_tab {h w : ℕ} {f : ℕ → ℕ → α} : (tab h w f).length = h := by
  simp [tab]

theorem getD_tab {h w : ℕ} {f : ℕ → ℕ → α} {a : ℕ} (ha : a < h) :
    (tab h w f).getD a [] = (List.range w).map (f a) := by
  unfold tab
  rw [List.getD_eq_getElem _ _ (by simpa using ha), List.getElem_map,
    List.getElem_range]

theorem rowlen_tab {h w : ℕ} {f : ℕ → ℕ → α} {a : ℕ} (ha : a < h) :
    ((tab h w f).getD a []).length = w := by
  rw [getD_tab ha, List.length_map, List.length_range]

theorem rect_tab {h w : ℕ} {f : ℕ → ℕ → α} : Rectangular (tab h w f) h w := by
  refine ⟨length_tab, fun r hr => ?_⟩
  unfold tab at hr
  obtain ⟨i, _, rfl⟩ := List.mem_map.mp hr
  simp

theorem get2D_tab {h w : ℕ} {f : ℕ → ℕ → α} {a b : ℕ} (ha : a < h)
    (hb : b < w) : get2D (tab h w f) a b = f a b := by
  unfold get2D
  rw [getD_tab ha, List.getD_eq_getElem _ _ (by simpa using hb),
    List.getElem_map, List.getElem_range]

end TabLemmas

section PadLemmas

variable {α : Type} [Zero α]

theorem foldl_grid_length {β : Type} (l : List β) (step : Grid α → β → Grid α)
    (h : ∀ g x, (step g x).length = g.length) (g : Grid α) :
    (l.foldl step g).length = g.length := by
  induction l generalizing g with
  | nil => rfl
  | cons a l ih => rw [List.foldl_cons, ih, h]

theorem foldl_grid_rowlen {β : Type} (l : List β) (step : Grid α → β → Grid α)
    (h : ∀ g x a, ((step g x).getD a []).length = (g.getD a []).length)
    (g : Grid α) (a : ℕ) :
    ((l.foldl step g).getD a []).length = (g.getD a []).length := by
  induction l generalizing g with
  | nil => rfl
  | cons x l ih => rw [List.foldl_cons, ih, h]

/-- The inner padding loop (`for j`) writing row `i` of the image into row
`i + padHeight` of the accumulator. -/
def padStepRow (image : Grid α) (padHeight padWidth i : ℕ) (acc : Grid α)
    (width : ℕ) : Grid α :=
  (List.range width).foldl
    (fun acc2 j => set2 acc2 (i + padHeight) (j + padWidth) (get2D image i j))
    acc

theorem length_padStepRow {image : Grid α} {pH pW i w : ℕ} {acc : Grid α} :
    (padStepRow image pH pW i acc w).length = acc.length :=
  foldl_grid_length _ _ (fun _ _ => length_set2) acc

theorem rowlen_padStepRow {image : Grid α} {pH pW i w : ℕ} {acc : Grid α}
    {a : ℕ} :
    ((padStepRow image pH pW i acc w).getD a []).length =
      (acc.getD a []).length :=
  foldl_grid_rowlen _ _ (fun g x a => rowlen_set2 g _ _ a _) acc a

theorem get2D_padStepRow (image : Grid α) (pH pW i : ℕ) :
    ∀ (n : ℕ) (acc : Grid α), i + pH < acc.length →
      (pW + n ≤ ((acc.getD (i + pH) []).length)) →
      ∀ a b, get2D (padStepRow image pH pW i acc n) a b =
        if a = i + pH ∧ pW ≤ b ∧ b < pW + n then get2D image i (b - pW)
        else get2D acc a b := by
  intro n
  induction n with
  | zero =>
    intro acc _ _ a b
    simp only [padStepRow, List.range_zero, List.foldl_nil]
    rw [if_neg (by omega)]
  | succ n ih =>
    intro acc hlen hrow a b
    have hstep :
        padStepRow image pH pW i acc (n + 1) =
          set2 (padStepRow image pH pW i acc n) (i + pH) (n + pW)
            (get2D image i n) := by
      unfold padStepRow
      rw [List.range_succ, List.foldl_append, List.foldl_cons, List.foldl_nil]
    rw [hstep]
    by_cases hhit : a = i + pH ∧ b = n + pW
    · obtain ⟨rfl, rfl⟩ := hhit
      rw [get2D_set2_hit (by rwa [length_padStepRow])
        (by rw [rowlen_padStepRow]; omega) _]
      rw [if_pos (by omega)]
      congr 1
      omega
    · have hmiss : i + pH ≠ a ∨ n + pW ≠ b := by
        by_contra hc
        push_neg at hc
        exact hhit ⟨hc.1.symm, hc.2.symm⟩
      rw [get2D_set2_miss hmiss, ih acc hlen (by omega) a b]
      by_cases hc : a = i + pH ∧ pW ≤ b ∧ b < pW + n
      · rw [if_pos hc, if_pos (by omega)]
      · rw [if_neg hc, if_neg (by omega)]

/-- The outer padding loop over the first `t` image rows, started from the
zero-filled padded buffer. -/
def padFold (image : Grid α) (height width padHeight padWidth t : ℕ) :
    Grid α :=
  (List.range t).foldl
    (fun acc i => padStepRow image padHeight padWidth i acc width)
    (zeroGrid (height + 2 * padHeight) (width + 2 * padWidth))

theorem length_padFold {image : Grid α} {H W pH pW t : ℕ} :
    (padFold image H W pH pW t).length = H + 2 * pH := by
  unfold padFold
  rw [foldl_grid_length _ _ (fun _ _ => length_padStepRow) _, length_zeroGrid]

theorem rowlen_padFold {image : Grid α} {H W pH pW t : ℕ} {a : ℕ}
    (ha : a < H + 2 * pH) :
    ((padFold image H W pH pW t).getD a []).length = W + 2 * pW := by
  unfold padFold
  rw [foldl_grid_rowlen _ _ (fun _ _ _ => rowlen_padStepRow) _ _,
    rowlen_zeroGrid ha]

theorem get2D_padFold (image : Grid α) (H W pH pW : ℕ) :
    ∀ (t : ℕ), t ≤ H → ∀ a b,
      get2D (padFold image H W pH pW t) a b =
        if pH ≤ a ∧ a < pH + t ∧ pW ≤ b ∧ b < pW + W then
          get2D image (a - pH) (b - pW)
        else 0 := by
  intro t
  induction t with
  | zero =>
    intro _ a b
    simp only [padFold, List.range_zero, List.foldl_nil]
    rw [get2D_zeroGrid, if_neg (by omega)]
  | succ t ih =>
    intro ht a b
    have hstep :
        padFold image H W pH pW (t + 1) =
          padStepRow image pH pW t (padFold image H W pH pW t) W := by
      unfold padFold
      rw [List.range_succ, List.foldl_append, List.foldl_cons, List.foldl_nil]
    rw [hstep,
      get2D_padStepRow image pH pW t W (padFold image H W pH pW t)
        (by rw [length_padFold]; omega)
        (by rw [rowlen_padFold (by omega)]; omega) a b]
    by_cases hrow : a = t + pH ∧ pW ≤ b ∧ b < pW + W
    · rw [if_pos hrow, if_pos (by omega)]
      congr 1
      omega
    · rw [if_neg hrow, ih (by omega) a b]
      by_cases hc : pH ≤ a ∧ a < pH + t ∧ pW ≤ b ∧ b < pW + W
      · rw [if_pos hc, if_pos (by omega)]
      · rw [if_neg hc, if_neg (by omega)]

theorem padFold_eq_padFun (image : Grid α) (H W pH pW : ℕ) :
    padFold image H W pH pW H = padFun image H W pH pW := by
  apply grid_ext
  · rw [length_padFold]
    unfold padFun
    rw [length_tab]
  · intro a ha
    rw [length_padFold] at ha
    rw [rowlen_padFold ha]
    unfold padFun
    rw [rowlen_tab ha]
  · intro a b ha hb
    rw [length_padFold] at ha
    rw [rowlen_padFold ha] at hb
    rw [get2D_padFold image H W pH pW H le_rfl a b]
    unfold padFun
    rw [get2D_tab ha hb]
    unfold padVal
    rfl

theorem padGrid_eq_some {image : Grid α} {H W : ℕ}
    (himg : Rectangular image H W) (pH pW : ℕ) :
    padGrid image H W pH pW = some (padFun image H W pH pW) := by
  unfold padGrid
  have houter :
      ∀ acc : Grid α, ∀ i ∈ List.range H,
        foldlO
          (fun acc2 j =>
            match get2? image i j with
            | some v => some (set2 acc2 (i + pH) (j + pW) v)
            | none => none)
          acc (List.range W) =
        some (padStepRow image pH pW i acc W) := by
    intro acc i hi
    have hi' : i < H := List.mem_range.mp hi
    have hinner :
        ∀ c : Grid α, ∀ j ∈ List.range W,
          (match get2? image i j with
            | some v => some (set2 c (i + pH) (j + pW) v)
            | none => none) =
          some (set2 c (i + pH) (j + pW) (get2D image i j)) := by
      intro c j hj
      have hj' : j < W := List.mem_range.mp hj
      rw [get2?_eq_some (himg.1 ▸ hi') (by rw [rect_rowlen himg hi']; exact hj')]
    exact foldlO_eq_some hinner acc
  rw [foldlO_eq_some houter _, ← padFold_eq_padFun image H W pH pW]
  rfl

end PadLemmas

section ConvLemmas

variable {α : Type} [Zero α] [Add α] [Mul α]

theorem sumCell_eq_some {padded kernel : Grid α} {ph pw kH kW i j : ℕ}
    (hpad : Rectangular padded ph pw) (hker : Rectangular kernel kH kW)
    (hin : ∀ ii jj, ii < kH → jj < kW → i + ii < ph ∧ j + jj < pw) :
    sumCell padded kernel kH kW i j =
      some (sumCellFun padded kernel kH kW i j) := by
  unfold sumCell sumCellFun
  refine foldlO_eq_some ?_ 0
  intro c ii hii
  have hii' : ii < kH := List.mem_range.mp hii
  refine foldlO_eq_some ?_ c
  intro c2 jj hjj
  have hjj' : jj < kW := List.mem_range.mp hjj
  obtain ⟨h1, h2⟩ := hin ii jj hii' hjj'
  rw [get2?_eq_some (hpad.1 ▸ h1) (by rw [rect_rowlen hpad h1]; exact h2),
    get2?_eq_some (hker.1 ▸ hii') (by rw [rect_rowlen hker hii']; exact hjj')]

theorem convolve_eq_some {image kernel : Grid α} {H W kH kW : ℕ}
    (himg : Rectangular image H W) (hker : Rectangular kernel kH kW)
    (hH : 1 ≤ H) (hkH : 1 ≤ kH) :
    convolve image kernel = some (convGrid image kernel H W kH kW) := by
  have hH' : 0 < image.length := by rw [himg.1]; exact hH
  have hkH' : 0 < kernel.length := by rw [hker.1]; exact hkH
  unfold convolve
  rw [get?_eq_some_getD [] hH', get?_eq_some_getD [] hkH']
  dsimp only
  rw [himg.1, hker.1, rect_rowlen himg hH, rect_rowlen hker hkH,
    padGrid_eq_some himg (kH / 2) (kW / 2)]
  dsimp only
  have houter :
      ∀ i ∈ List.range H,
        mapO
          (fun j =>
            sumCell (padFun image H W (kH / 2) (kW / 2)) kernel kH kW i j)
          (List.range W) =
        some ((List.range W).map fun j =>
          sumCellFun (padFun image H W (kH / 2) (kW / 2)) kernel kH kW i j) := by
    intro i hi
    have hi' : i < H := List.mem_range.mp hi
    refine mapO_eq_some ?_
    intro j hj
    have hj' : j < W := List.mem_range.mp hj
    exact sumCell_eq_some rect_tab hker
      (fun ii jj hii hjj => by constructor <;> omega)
  rw [mapO_eq_some houter]
  rfl

end ConvLemmas

section PartitionLemmas

theorem workerStart_le_workerEnd {H N : ℕ} (hN : 1 ≤ N) {w : ℕ} (hw : w < N) :
    workerStart (H / N) w ≤ workerEnd H N (H / N) w := by
  unfold workerStart workerEnd
  split
  · next h =>
    subst h
    calc (N - 1) * (H / N) ≤ N * (H / N) := Nat.mul_le_mul_right _ (by omega)
    _ = H / N * N := Nat.mul_comm _ _
    _ ≤ H := Nat.div_mul_le_self H N
  · exact Nat.le_add_right _ _

theorem workerEnd_le {H N : ℕ} (hN : 1 ≤ N) {w : ℕ} (hw : w < N) :
    workerEnd H N (H / N) w ≤ H := by
  unfold workerEnd
  split
  · exact le_rfl
  · next hne =>
    have hwlt : w + 1 ≤ N := by omega
    calc w * (H / N) + H / N = (w + 1) * (H / N) := by ring
    _ ≤ N * (H / N) := Nat.mul_le_mul_right _ hwlt
    _ = H / N * N := Nat.mul_comm _ _
    _ ≤ H := Nat.div_mul_le_self H N

theorem workerCover {H N : ℕ} (hN : 1 ≤ N) {i : ℕ} (hi : i < H) :
    ∃ w, w < N ∧ workerStart (H / N) w ≤ i ∧ i < workerEnd H N (H / N) w := by
  by_cases hcase : i < (N - 1) * (H / N)
  · have hr : 0 < H / N := by
      rcases Nat.eq_zero_or_pos (H / N) with h0 | h0
      · rw [h0, Nat.mul_zero] at hcase
        omega
      · exact h0
    refine ⟨i / (H / N), ?_, ?_, ?_⟩
    · have : i / (H / N) < N - 1 := (Nat.div_lt_iff_lt_mul hr).mpr hcase
      omega
    · exact Nat.div_mul_le_self i (H / N)
    · have hlt : i / (H / N) < N - 1 := (Nat.div_lt_iff_lt_mul hr).mpr hcase
      unfold workerEnd
      rw [if_neg (by omega)]
      exact Nat.lt_div_mul_add hr
  · refine ⟨N - 1, by omega, ?_, ?_⟩
    · unfold workerStart
      omega
    · unfold workerEnd
      rw [if_pos rfl]
      exact hi

theorem worker_disjoint {H N r : ℕ} {w1 w2 : ℕ} (h12 : w1 < w2) (hw2 : w2 < N) :
    workerEnd H N r w1 ≤ workerStart r w2 := by
  unfold workerEnd workerStart
  rw [if_neg (by omega)]
  calc w1 * r + r = (w1 + 1) * r := by ring
  _ ≤ w2 * r := Nat.mul_le_mul_right _ (by omega)

theorem workerCover_unique {H N : ℕ} {i : ℕ} {w1 w2 : ℕ}
    (h1 : w1 < N ∧ workerStart (H / N) w1 ≤ i ∧ i < workerEnd H N (H / N) w1)
    (h2 : w2 < N ∧ workerStart (H / N) w2 ≤ i ∧ i < workerEnd H N (H / N) w2) :
    w1 = w2 := by
  rcases Nat.lt_trichotomy w1 w2 with hlt | heq | hgt
  · have := worker_disjoint (H := H) (N := N) (r := H / N) hlt h2.1
    omega
  · exact heq
  · have := worker_disjoint (H := H) (N := N) (r := H / N) hgt h1.1
    omega

end PartitionLemmas

section ParallelLemmas

variable {α : Type} [Zero α] [Add α] [Mul α]

theorem set_getD_self {β : Type} (l : List β) (i : ℕ) (d : β) :
    l.set i (l.getD i d) = l := by
  by_cases h : i < l.length
  · apply List.ext_getElem (by simp)
    intro n h1 h2
    by_cases hn : i = n
    · subst hn
      rw [List.getElem_set_self, List.getD_eq_getElem _ _ h]
    · rw [List.getElem_set_ne hn]
  · exact List.set_eq_of_length_le (Nat.le_of_not_lt h)

theorem selfCopy_eq {g : Grid α} {s n : ℕ} : selfCopy g s n = g := by
  unfold selfCopy
  induction n with
  | zero => rfl
  | succ n ih =>
    rw [List.range_succ, List.foldl_append, ih, List.foldl_cons,
      List.foldl_nil, set_getD_self]

theorem foldl_selfCopy_eq {β : Type} (l : List β) (sf nf : β → ℕ)
    (g : Grid α) :
    l.foldl (fun acc w => selfCopy acc (sf w) (nf w)) g = g := by
  induction l generalizing g with
  | nil => rfl
  | cons a l ih => rw [List.foldl_cons, selfCopy_eq, ih]

/-- One worker's write loop: set each row of `[s, s+n)` to `rows i`. -/
theorem foldl_setRow_get? (rows : ℕ → List α) :
    ∀ (n s : ℕ) (g : Grid α) (j : ℕ),
      ((List.range' s n).foldl (fun acc i => acc.set i (rows i)) g).get? j =
        if s ≤ j ∧ j < s + n ∧ j < g.length then some (rows j) else g.get? j := by
  intro n
  induction n with
  | zero =>
    intro s g j
    rw [List.range'_zero, List.foldl_nil, if_neg (by omega)]
  | succ n ih =>
    intro s g j
    rw [List.range'_succ, List.foldl_cons, ih (s + 1) (g.set s (rows s)) j,
      List.length_set]
    by_cases hj : j = s
    · subst hj
      rw [if_neg (by omega)]
      by_cases hlen : j < g.length
      · rw [if_pos (by omega), List.get?_set_eq_of_lt _ hlen]
      · rw [if_neg (by omega), List.set_eq_of_length_le (by omega)]
    · by_cases hc : s + 1 ≤ j ∧ j < s + 1 + n ∧ j < g.length
      · rw [if_pos hc, if_pos (by omega)]
      · rw [if_neg hc, List.get?_set_ne _ _ (fun h => hj h.symm),
          if_neg (by omega)]

theorem length_foldl_setRow (rows : ℕ → ℕ → List α) (ends : ℕ → ℕ × ℕ) :
    ∀ (l : List ℕ) (g : Grid α),
      (l.foldl
        (fun acc w =>
          (List.range' (ends w).1 (ends w).2).foldl
            (fun acc2 i => acc2.set i (rows w i)) acc)
        g).length = g.length := by
  intro l
  induction l with
  | nil => intro g; rfl
  | cons a l ih =>
    intro g
    rw [List.foldl_cons, ih]
    exact foldl_grid_length _ _ (fun _ _ => List.length_set _ _ _) g

/-- After the workers `0, …, t-1` have run, every row owned by one of them
holds its computed value. -/
theorem workerFold_get? (rows : ℕ → List α) (H N rpw : ℕ) (g0 : Grid α)
    (hg0 : g0.length = H) :
    ∀ (t : ℕ) (j : ℕ),
      (∃ w, w < t ∧ workerStart rpw w ≤ j ∧ j < workerEnd H N rpw w) →
      j < H →
      ((List.range t).foldl
        (fun acc w =>
          (List.range' (workerStart rpw w)
            (workerEnd H N rpw w - workerStart rpw w)).foldl
            (fun acc2 i => acc2.set i (rows i)) acc)
        g0).get? j = some (rows j) := by
  intro t
  induction t with
  | zero =>
    intro j hw _
    obtain ⟨w, hw0, _⟩ := hw
    omega
  | succ t ih =>
    intro j hw hj
    rw [List.range_succ, List.foldl_append, List.foldl_cons, List.foldl_nil]
    set gprev :=
      (List.range t).foldl
        (fun acc w =>
          (List.range' (workerStart rpw w)
            (workerEnd H N rpw w - workerStart rpw w)).foldl
            (fun acc2 i => acc2.set i (rows i)) acc)
        g0 with hgprev
    have hlen : gprev.length = H := by
      rw [hgprev]
      have := length_foldl_setRow (fun _ i => rows i)
        (fun w => (workerStart rpw w, workerEnd H N rpw w - workerStart rpw w))
        (List.range t) g0
      simpa using this ▸ hg0
    rw [foldl_setRow_get? rows _ _ gprev j]
    by_cases hc : workerStart rpw t ≤ j ∧
        j < workerStart rpw t + (workerEnd H N rpw t - workerStart rpw t) ∧
        j < gprev.length
    · rw [if_pos hc]
    · rw [if_neg hc]
      obtain ⟨w, hwt, hws, hwe⟩ := hw
      rcases Nat.lt_or_ge w t with hw' | hw'
      · exact ih j ⟨w, hw', hws, hwe⟩ hj
      · have hwt' : w = t := by omega
        subst hwt'
        exfalso
        exact hc ⟨hws, by omega, by omega⟩

theorem workerFold_length (rows : ℕ → List α) (H N rpw : ℕ) (g0 : Grid α)
    (t : ℕ) :
    ((List.range t).foldl
      (fun acc w =>
        (List.range' (workerStart rpw w)
          (workerEnd H N rpw w - workerStart rpw w)).foldl
          (fun acc2 i => acc2.set i (rows i)) acc)
      g0).length = g0.length := by
  suffices h : ∀ (l : List ℕ) (g : Grid α),
      (l.foldl
        (fun acc w =>
          (List.range' (workerStart rpw w)
            (workerEnd H N rpw w - workerStart rpw w)).foldl
            (fun acc2 i => acc2.set i (rows i)) acc)
        g).length = g.length by
    exact h _ g0
  intro l
  induction l with
  | nil => intro g; rfl
  | cons a l ih =>
    intro g
    rw [List.foldl_cons, ih]
    exact foldl_grid_length _ _ (fun _ _ => List.length_set _ _ _) g

theorem convolveParallel_eq_some {image kernel : Grid α} {H W kH kW N : ℕ}
    (himg : Rectangular image H W) (hker : Rectangular kernel kH kW)
    (hH : 1 ≤ H) (hkH : 1 ≤ kH) (hN : 1 ≤ N) :
    convolveParallel image kernel N =
      some (convGrid image kernel H W kH kW) := by
  have hH' : 0 < image.length := by rw [himg.1]; exact hH
  have hkH' : 0 < kernel.length := by rw [hker.1]; exact hkH
  unfold convolveParallel
  rw [get?_eq_some_getD [] hH', get?_eq_some_getD [] hkH']
  dsimp only
  rw [himg.1, hker.1, rect_rowlen himg hH, rect_rowlen hker hkH,
    padGrid_eq_some himg (kH / 2) (kW / 2)]
  dsimp only
  rw [if_neg (by omega)]
  have hworkers :
      ∀ acc : Grid α, ∀ w ∈ List.range N,
        foldlO
          (fun acc2 i =>
            match
              mapO
                (fun j =>
                  sumCell (padFun image H W (kH / 2) (kW / 2)) kernel kH kW i j)
                (List.range W)
            with
            | some row => some (acc2.set i row)
            | none => none)
          acc
          (List.range' (workerStart (H / N) w)
            (workerEnd H N (H / N) w - workerStart (H / N) w)) =
        some
          ((List.range' (workerStart (H / N) w)
            (workerEnd H N (H / N) w - workerStart (H / N) w)).foldl
            (fun acc2 i =>
              acc2.set i ((List.range W).map fun j =>
                sumCellFun (padFun image H W (kH / 2) (kW / 2)) kernel kH kW i j))
            acc) := by
    intro acc w hw
    have hw' : w < N := List.mem_range.mp hw
    refine foldlO_eq_some ?_ acc
    intro c i hi
    have hi' : i < H := by
      have hm := List.mem_range'_1.mp hi
      have hse := workerStart_le_workerEnd (H := H) hN hw'
      have hle := workerEnd_le (H := H) hN hw'
      omega
    have hrow :
        mapO
          (fun j =>
            sumCell (padFun image H W (kH / 2) (kW / 2)) kernel kH kW i j)
          (List.range W) =
        some ((List.range W).map fun j =>
          sumCellFun (padFun image H W (kH / 2) (kW / 2)) kernel kH kW i j) := by
      refine mapO_eq_some ?_
      intro j hj
      have hj' : j < W := List.mem_range.mp hj
      exact sumCell_eq_some rect_tab hker
        (fun ii jj hii hjj => by constructor <;> omega)
    rw [hrow]
  rw [foldlO_eq_some hworkers _]
  dsimp only
  rw [foldl_selfCopy_eq]
  congr 1
  apply List.ext_get?
  intro n
  set rows : ℕ → List α := fun i =>
    (List.range W).map fun j =>
      sumCellFun (padFun image H W (kH / 2) (kW / 2)) kernel kH kW i j
    with hrows
  by_cases hn : n < H
  · rw [workerFold_get? rows H N (H / N) (zeroGrid H W) (length_zeroGrid H W) N n
      (workerCover hN hn) hn]
    unfold convGrid tab
    rw [get?_eq_some_getD [] (by simp [hn]),
      List.getD_eq_getElem _ _ (by simp [hn]), List.getElem_map,
      List.getElem_range]
  · rw [List.get?_eq_none.mpr, List.get?_eq_none.mpr]
    · unfold convGrid tab
      simp [Nat.le_of_not_lt hn]
    · rw [workerFold_length rows H N (H / N) (zeroGrid H W) N, length_zeroGrid]
      omega

end ParallelLemmas

section SumLemmas

theorem foldl_add_eq_sum {M : Type} [AddCommMonoid M] (f : ℕ → M) :
    ∀ (n : ℕ) (c : M),
      (List.range n).foldl (fun a k => a + f k) c =
        c + ∑ k ∈ Finset.range n, f k := by
  intro n
  induction n with
  | zero => intro c; simp
  | succ n ih =>
    intro c
    rw [List.range_succ, List.foldl_append, List.foldl_cons, List.foldl_nil,
      ih, Finset.sum_range_succ, add_assoc]

theorem sumCellFun_eq_sum (padded kernel : Grid ℚ) (kH kW i j : ℕ) :
    sumCellFun padded kernel kH kW i j =
      ∑ a ∈ Finset.range kH, ∑ b ∈ Finset.range kW,
        get2D padded (i + a) (j + b) * get2D kernel a b := by
  unfold sumCellFun
  have hstep :
      (fun (acc : ℚ) ii =>
        (List.range kW).foldl
          (fun acc2 jj => acc2 + get2D padded (i + ii) (j + jj) * get2D kernel ii jj)
          acc) =
      fun acc ii =>
        acc + ∑ b ∈ Finset.range kW, get2D padded (i + ii) (j + b) * get2D kernel ii b := by
    funext acc ii
    exact foldl_add_eq_sum _ kW acc
  rw [hstep, foldl_add_eq_sum
    (fun ii => ∑ b ∈ Finset.range kW, get2D padded (i + ii) (j + b) * get2D kernel ii b)
    kH 0, zero_add]

end SumLemmas

section MinMaxLemmas

theorem rowMin_le (l : List ℚ) :
    ∀ a : ℚ, l.foldl (fun m e => if e < m then e else m) a ≤ a := by
  induction l with
  | nil => intro a; exact le_rfl
  | cons x l ih =>
    intro a
    rw [List.foldl_cons]
    refine le_trans (ih _) ?_
    split
    · next h => exact le_of_lt h
    · exact le_rfl

theorem rowMin_le_mem (l : List ℚ) {b : ℚ} (hb : b ∈ l) :
    ∀ a : ℚ, l.foldl (fun m e => if e < m then e else m) a ≤ b := by
  induction l with
  | nil => exact absurd hb (List.not_mem_nil b)
  | cons x l ih =>
    intro a
    rw [List.foldl_cons]
    rcases List.mem_cons.mp hb with rfl | hb'
    · refine le_trans (rowMin_le l _) ?_
      split
      · exact le_rfl
      · next h => exact le_of_not_lt h
    · exact ih hb' _

theorem rowMin_cases (l : List ℚ) :
    ∀ a : ℚ, l.foldl (fun m e => if e < m then e else m) a = a ∨
      l.foldl (fun m e => if e < m then e else m) a ∈ l := by
  induction l with
  | nil => intro a; exact Or.inl rfl
  | cons x l ih =>
    intro a
    rw [List.foldl_cons]
    rcases ih (if x < a then x else a) with h | h
    · rw [h]
      split
      · exact Or.inr (List.mem_cons_self _ _)
      · exact Or.inl rfl
    · exact Or.inr (List.mem_cons_of_mem _ h)

theorem rowMax_ge (l : List ℚ) :
    ∀ a : ℚ, a ≤ l.foldl (fun m e => if m < e then e else m) a := by
  induction l with
  | nil => intro a; exact le_rfl
  | cons x l ih =>
    intro a
    rw [List.foldl_cons]
    refine le_trans ?_ (ih _)
    split
    · next h => exact le_of_lt h
    · exact le_rfl

theorem rowMax_ge_mem (l : List ℚ) {b : ℚ} (hb : b ∈ l) :
    ∀ a : ℚ, b ≤ l.foldl (fun m e => if m < e then e else m) a := by
  induction l with
  | nil => exact absurd hb (List.not_mem_nil b)
  | cons x l ih =>
    intro a
    rw [List.foldl_cons]
    rcases List.mem_cons.mp hb with rfl | hb'
    · refine le_trans ?_ (rowMax_ge l _)
      split
      · exact le_rfl
      · next h => exact le_of_not_lt h
    · exact ih hb' _

theorem rowMax_cases (l : List ℚ) :
    ∀ a : ℚ, l.foldl (fun m e => if m < e then e else m) a = a ∨
      l.foldl (fun m e => if m < e then e else m) a ∈ l := by
  induction l with
  | nil => intro a; exact Or.inl rfl
  | cons x l ih =>
    intro a
    rw [List.foldl_cons]
    rcases ih (if a < x then x else a) with h | h
    · rw [h]
      split
      · exact Or.inr (List.mem_cons_self _ _)
      · exact Or.inl rfl
    · exact Or.inr (List.mem_cons_of_mem _ h)

theorem foldMin_le_seed (g : Grid ℚ) : ∀ s : ℚ, foldMin g s ≤ s := by
  unfold foldMin
  induction g with
  | nil => intro s; exact le_rfl
  | cons r g ih =>
    intro s
    rw [List.foldl_cons]
    exact le_trans (ih _) (rowMin_le r s)

theorem foldMin_le_cell (g : Grid ℚ) {r : List ℚ} {e : ℚ} (hr : r ∈ g)
    (he : e ∈ r) : ∀ s : ℚ, foldMin g s ≤ e := by
  unfold foldMin
  induction g with
  | nil => exact absurd hr (List.not_mem_nil r)
  | cons r0 g ih =>
    intro s
    rw [List.foldl_cons]
    rcases List.mem_cons.mp hr with rfl | hr'
    · exact le_trans (foldMin_le_seed g _) (rowMin_le_mem _ he s)
    · exact ih hr' _

theorem foldMin_cases (g : Grid ℚ) :
    ∀ s : ℚ, foldMin g s = s ∨ ∃ r ∈ g, foldMin g s ∈ r := by
  unfold foldMin
  induction g with
  | nil => intro s; exact Or.inl rfl
  | cons r0 g ih =>
    intro s
    rw [List.foldl_cons]
    rcases ih (r0.foldl (fun m e => if e < m then e else m) s) with h | h
    · rw [h]
      rcases rowMin_cases r0 s with h2 | h2
      · exact Or.inl h2
      · exact Or.inr ⟨r0, List.mem_cons_self _ _, h2⟩
    · obtain ⟨r, hrg, hmem⟩ := h
      exact Or.inr ⟨r, List.mem_cons_of_mem _ hrg, hmem⟩

theorem foldMax_ge_seed (g : Grid ℚ) : ∀ s : ℚ, s ≤ foldMax g s := by
  unfold foldMax
  induction g with
  | nil => intro s; exact le_rfl
  | cons r g ih =>
    intro s
    rw [List.foldl_cons]
    exact le_trans (rowMax_ge r s) (ih _)

theorem foldMax_ge_cell (g : Grid ℚ) {r : List ℚ} {e : ℚ} (hr : r ∈ g)
    (he : e ∈ r) : ∀ s : ℚ, e ≤ foldMax g s := by
  unfold foldMax
  induction g with
  | nil => exact absurd hr (List.not_mem_nil r)
  | cons r0 g ih =>
    intro s
    rw [List.foldl_cons]
    rcases List.mem_cons.mp hr with rfl | hr'
    · exact le_trans (rowMax_ge_mem _ he s) (foldMax_ge_seed g _)
    · exact ih hr' _

theorem foldMax_cases (g : Grid ℚ) :
    ∀ s : ℚ, foldMax g s = s ∨ ∃ r ∈ g, foldMax g s ∈ r := by
  unfold foldMax
  induction g with
  | nil => intro s; exact Or.inl rfl
  | cons r0 g ih =>
    intro s
    rw [List.foldl_cons]
    rcases ih (r0.foldl (fun m e => if m < e then e else m) s) with h | h
    · rw [h]
      rcases rowMax_cases r0 s with h2 | h2
      · exact Or.inl h2
      · exact Or.inr ⟨r0, List.mem_cons_self _ _, h2⟩
    · obtain ⟨r, hrg, hmem⟩ := h
      exact Or.inr ⟨r, List.mem_cons_of_mem _ hrg, hmem⟩

theorem mem_tab_index {w h : ℕ} {f : ℕ → ℕ → ℚ} {r : List ℚ} {e : ℚ}
    (hr : r ∈ tab h w f) (he : e ∈ r) :
    ∃ i, i < h ∧ ∃ j, j < w ∧ e = f i j := by
  unfold tab at hr
  obtain ⟨i, hi, rfl⟩ := List.mem_map.mp hr
  obtain ⟨j, hj, rfl⟩ := List.mem_map.mp he
  exact ⟨i, List.mem_range.mp hi, j, List.mem_range.mp hj, rfl⟩

end MinMaxLemmas

section MoreHelpers

variable {α : Type} [Zero α]

theorem get2D_tab_oob {h w : ℕ} {f : ℕ → ℕ → α} {a b : ℕ}
    (hab : ¬(a < h ∧ b < w)) : get2D (tab h w f) a b = 0 := by
  by_cases ha : a < h
  · have hb : w ≤ b := Nat.le_of_not_lt fun hb => hab ⟨ha, hb⟩
    unfold get2D
    rw [getD_tab ha,
      List.getD_eq_default _ _ (by rwa [List.length_map, List.length_range])]
  · unfold get2D
    rw [show (tab h w f).getD a [] = [] from
        List.getD_eq_default _ _
          (by rw [length_tab]; exact Nat.le_of_not_lt ha),
      List.getD_nil]

theorem get2D_padFun (image : Grid α) (H W pH pW a b : ℕ) :
    get2D (padFun image H W pH pW) a b = padVal image H W pH pW a b := by
  by_cases hab : a < H + 2 * pH ∧ b < W + 2 * pW
  · exact get2D_tab hab.1 hab.2
  · unfold padFun
    rw [get2D_tab_oob hab]
    unfold padVal
    rw [if_neg (by omega)]

end MoreHelpers

section ClaimTheorems

/-- C1: for every rectangular grid (`H, W ≥ 1`), every odd-dimensioned
kernel, and every worker count `1 ≤ N ≤ H + 5` (including `N` not dividing
`H` and `N > H`), parallel and sequential convolution return identical
results cell-for-cell.  The scalar type is abstract with uninterpreted
`0`/`+`/`*`, so the equality holds for any arithmetic — in particular for
IEEE float64, where both sides perform the same operations in the same
order per cell, making the results bit-identical. -/
theorem parallel_eq_sequential {α : Type} [Zero α] [Add α] [Mul α]
    {image kernel : Grid α} {H W kH kW N : ℕ}
    (himg : Rectangular image H W) (hker : Rectangular kernel kH kW)
    (hH : 1 ≤ H) (hW : 1 ≤ W) (hkH : kH % 2 = 1) (hkW : kW % 2 = 1)
    (hN1 : 1 ≤ N) (hN2 : N ≤ H + 5) :
    convolveParallel image kernel N = convolve image kernel := by
  rw [convolve_eq_some himg hker hH (by omega),
    convolveParallel_eq_some himg hker hH (by omega) hN1]

theorem parallel_eq_sequential_witness :
    convolveParallel (α := ℤ) [[1, 2], [3, 4], [5, 6]]
      [[-1, 0, 1], [-2, 0, 2], [-1, 0, 1]] 2 =
    convolve [[1, 2], [3, 4], [5, 6]] [[-1, 0, 1], [-2, 0, 2], [-1, 0, 1]] :=
  parallel_eq_sequential
    (show Rectangular [[1, 2], [3, 4], [5, 6]] 3 2 by decide)
    (show Rectangular [[-1, 0, 1], [-2, 0, 2], [-1, 0, 1]] 3 3 by decide)
    (by decide) (by decide) (by decide) (by decide) (by decide) (by decide)

/-- C2: for every `H ≥ 1` and worker count `N ≥ 1`, the row ranges of the
`N` workers are contiguous, stay within `[0, H)`, cover every row `i < H`
exactly once (so each row of the result is written by exactly one worker),
and when `N > H` every worker except the last receives an empty range. -/
theorem partition_correct {H N : ℕ} (hH : 1 ≤ H) (hN : 1 ≤ N) :
    (∀ w, w + 1 < N →
      workerEnd H N (H / N) w = workerStart (H / N) (w + 1)) ∧
    (∀ w, w < N → workerEnd H N (H / N) w ≤ H) ∧
    (∀ i, i < H → ∃! w, w < N ∧ workerStart (H / N) w ≤ i ∧
      i < workerEnd H N (H / N) w) ∧
    (H < N → ∀ w, w + 1 < N →
      workerEnd H N (H / N) w = workerStart (H / N) w) := by
  refine ⟨?_, ?_, ?_, ?_⟩
  · intro w hw
    unfold workerEnd workerStart
    rw [if_neg (by omega)]
    ring
  · intro w hw
    exact workerEnd_le hN hw
  · intro i hi
    obtain ⟨w, hw, hws, hwe⟩ := workerCover hN hi
    exact ⟨w, ⟨hw, hws, hwe⟩, fun y hy => workerCover_unique hy ⟨hw, hws, hwe⟩⟩
  · intro hHN w hw
    unfold workerEnd workerStart
    rw [if_neg (by omega), Nat.div_eq_of_lt hHN]
    omega

theorem partition_correct_witness :
    (∀ w, w + 1 < 3 →
      workerEnd 5 3 (5 / 3) w = workerStart (5 / 3) (w + 1)) ∧
    (∀ w, w < 3 → workerEnd 5 3 (5 / 3) w ≤ 5) ∧
    (∀ i, i < 5 → ∃! w, w < 3 ∧ workerStart (5 / 3) w ≤ i ∧
      i < workerEnd 5 3 (5 / 3) w) ∧
    (5 < 3 → ∀ w, w + 1 < 3 →
      workerEnd 5 3 (5 / 3) w = workerStart (5 / 3) w) :=
  partition_correct (by decide) (by decide)

/-- C3: for every rectangular `H × W` grid (`H, W ≥ 1`) and every
odd-dimensioned kernel, `convolve` returns an `H × W` grid whose cell
`(i, j)` is the cross-correlation sum
`Σ_{a<kH, b<kW} P(i+a, j+b) · K(a, b)` over the zero-padded image `P`,
computed exactly in the scalar field (no clamping or rounding). -/
theorem convolve_cells {image kernel : Grid ℚ} {H W kH kW : ℕ}
    (himg : Rectangular image H W) (hker : Rectangular kernel kH kW)
    (hH : 1 ≤ H) (hW : 1 ≤ W) (hkH : kH % 2 = 1) (hkW : kW % 2 = 1) :
    convolve image kernel = some (convGrid image kernel H W kH kW) ∧
    Rectangular (convGrid image kernel H W kH kW) H W ∧
    ∀ i j, i < H → j < W →
      get2D (convGrid image kernel H W kH kW) i j =
        ∑ a ∈ Finset.range kH, ∑ b ∈ Finset.range kW,
          padVal image H W (kH / 2) (kW / 2) (i + a) (j + b) *
            get2D kernel a b := by
  refine ⟨convolve_eq_some himg hker hH (by omega), rect_tab, ?_⟩
  intro i j hi hj
  unfold convGrid
  rw [get2D_tab hi hj, sumCellFun_eq_sum]
  refine Finset.sum_congr rfl fun a _ => Finset.sum_congr rfl fun b _ => ?_
  rw [get2D_padFun]

theorem convolve_cells_witness :
    convolve (α := ℚ) [[1, 2], [3, 4]] sobelX =
      some (convGrid [[1, 2], [3, 4]] sobelX 2 2 3 3) ∧
    Rectangular (convGrid [[1, 2], [3, 4]] sobelX 2 2 3 3) 2 2 ∧
    ∀ i j, i < 2 → j < 2 →
      get2D (convGrid [[1, 2], [3, 4]] sobelX 2 2 3 3) i j =
        ∑ a ∈ Finset.range 3, ∑ b ∈ Finset.range 3,
          padVal [[1, 2], [3, 4]] 2 2 (3 / 2) (3 / 2) (i + a) (j + b) *
            get2D sobelX a b :=
  convolve_cells (by decide) (by decide) (by decide) (by decide) (by decide)
    (by decide)

/-- C5: the spec requires zero-dimension grids/kernels to abort with a
defined `InvalidDimensions` error before any work.  The code has no error
path at all: a `1 × 0` kernel is processed silently and yields a normal
all-zero grid, and a zero-row image makes `len(image[0])` panic (modelled
`none`) rather than return an error. -/
theorem no_dimension_check :
    convolve (α := ℚ) [[1]] [[]] = some [[0]] ∧
    convolve (α := ℚ) ([] : Grid ℚ) [[1]] = none := by
  constructor
  · decide
  · decide

/-- C6: padding a rectangular `H × W` grid with half-extents
`kH / 2, kW / 2` yields a fresh `(H + 2·padH) × (W + 2·padW)` grid that
holds `G(i, j)` at `(i + padH, j + padW)` and `0` everywhere else (the
embedding is purely functional, so `G` itself is never mutated). -/
theorem padding_correct {α : Type} [Zero α] {image : Grid α} {H W : ℕ}
    (himg : Rectangular image H W) (kH kW : ℕ) :
    padGrid image H W (kH / 2) (kW / 2) =
      some (padFun image H W (kH / 2) (kW / 2)) ∧
    Rectangular (padFun image H W (kH / 2) (kW / 2))
      (H + 2 * (kH / 2)) (W + 2 * (kW / 2)) ∧
    (∀ i j, i < H → j < W →
      get2D (padFun image H W (kH / 2) (kW / 2)) (i + kH / 2) (j + kW / 2) =
        get2D image i j) ∧
    (∀ a b, ¬(kH / 2 ≤ a ∧ a < kH / 2 + H ∧ kW / 2 ≤ b ∧ b < kW / 2 + W) →
      get2D (padFun image H W (kH / 2) (kW / 2)) a b = 0) := by
  refine ⟨padGrid_eq_some himg _ _, rect_tab, ?_, ?_⟩
  · intro i j hi hj
    rw [get2D_padFun]
    unfold padVal
    rw [if_pos (by omega)]
    congr 1
    · omega
    · omega
  · intro a b hab
    rw [get2D_padFun]
    unfold padVal
    rw [if_neg (by omega)]

theorem padding_correct_witness :
    (padGrid (α := ℤ) [[1, 2], [3, 4]] 2 2 (3 / 2) (3 / 2) =
      some (padFun [[1, 2], [3, 4]] 2 2 (3 / 2) (3 / 2))) ∧
    Rectangular (padFun (α := ℤ) [[1, 2], [3, 4]] 2 2 (3 / 2) (3 / 2))
      (2 + 2 * (3 / 2)) (2 + 2 * (3 / 2)) ∧
    (∀ i j, i < 2 → j < 2 →
      get2D (padFun (α := ℤ) [[1, 2], [3, 4]] 2 2 (3 / 2) (3 / 2))
        (i + 3 / 2) (j + 3 / 2) = get2D [[1, 2], [3, 4]] i j) ∧
    (∀ a b, ¬(3 / 2 ≤ a ∧ a < 3 / 2 + 2 ∧ 3 / 2 ≤ b ∧ b < 3 / 2 + 2) →
      get2D (padFun (α := ℤ) [[1, 2], [3, 4]] 2 2 (3 / 2) (3 / 2)) a b = 0) :=
  padding_correct (by decide) 3 3

/-- C10: `convolveParallel` is safe for every worker count `N ≥ 1` on a
well-formed input (all slice accesses in bounds, so the checked model
returns `some`), but with `numWorkers = 0` the division
`height / numWorkers` is a division by zero (a Go runtime panic, modelled
`none`) — an unstated precondition on the worker count. -/
theorem parallel_worker_precondition {α : Type} [Zero α] [Add α] [Mul α]
    {image kernel : Grid α} {H W kH kW : ℕ}
    (himg : Rectangular image H W) (hker : Rectangular kernel kH kW)
    (hH : 1 ≤ H) (hW : 1 ≤ W) (hkH : kH % 2 = 1) (hkW : kW % 2 = 1) :
    (∀ N, 1 ≤ N → (convolveParallel image kernel N).isSome = true) ∧
    convolveParallel image kernel 0 = none := by
  constructor
  · intro N hN
    rw [convolveParallel_eq_some himg hker hH (by omega) hN]
    rfl
  · have hH' : 0 < image.length := by rw [himg.1]; exact hH
    have hkH' : 0 < kernel.length := by rw [hker.1]; omega
    unfold convolveParallel
    rw [get?_eq_some_getD [] hH', get?_eq_some_getD [] hkH']
    dsimp only
    rw [himg.1, hker.1, rect_rowlen himg hH, rect_rowlen hker (by omega),
      padGrid_eq_some himg (kH / 2) (kW / 2)]
    dsimp only
    rw [if_pos rfl]

theorem parallel_worker_precondition_witness :
    (∀ N, 1 ≤ N →
      (convolveParallel (α := ℤ) [[1, 2], [3, 4]]
        [[-1, 0, 1], [-2, 0, 2], [-1, 0, 1]] N).isSome = true) ∧
    convolveParallel (α := ℤ) [[1, 2], [3, 4]]
      [[-1, 0, 1], [-2, 0, 2], [-1, 0, 1]] 0 = none :=
  parallel_worker_precondition
    (show Rectangular [[1, 2], [3, 4]] 2 2 by decide)
    (show Rectangular [[-1, 0, 1], [-2, 0, 2], [-1, 0, 1]] 3 3 by decide)
    (by decide) (by decide) (by decide) (by decide)

theorem tab_map (h w : ℕ) (f : ℕ → ℕ → ℚ) (g : ℚ → ℚ) :
    (tab h w f).map (fun row => row.map g) = tab h w fun i j => g (f i j) := by
  simp [tab, List.map_map, Function.comp]

/-- C4: the spec requires the degenerate normalization case `min == max`
(e.g. both gradients all-zero) to produce an all-zero output with no
NaN/Inf.  The code divides by `maxValue - minValue` with no guard, so on
all-zero gradients every cell is `255 * 0 / 0 = NaN` in float64: the
checked model returns `none` (no finite grid), refuting the claim — the
spec itself notes the missing guard as an unhandled edge case of the
original. -/
theorem combiner_degenerate_nan (sqrtF : ℚ → ℚ) (h0 : sqrtF 0 = 0) :
    combineAndNormalize sqrtF [[0]] [[0]] = none := by
  simp [combineAndNormalize, magnitudeGrid, tab, get2?, get2D, foldMin,
    foldMax, List.range_succ, h0]

theorem combiner_degenerate_nan_witness :
    combineAndNormalize id [[0]] [[0]] = none :=
  combiner_degenerate_nan id rfl

/-- C7: for same-shaped gradient grids whose magnitude grid
`M(i,j) = sqrt(Gx²+Gy²)` has `min < max`, the combiner returns a grid of
the same shape whose every cell is `255 · (M(i,j) − min) / (max − min)`,
where `min`/`max` are a lower/upper bound of all cells and are attained;
the embedding is purely functional, so neither input is mutated. -/
theorem combiner_normalizes (sqrtF : ℚ → ℚ) {gradientX gradientY : Grid ℚ}
    {H W : ℕ} (hx : Rectangular gradientX H W)
    (hy : Rectangular gradientY H W) (hH : 1 ≤ H) (hW : 1 ≤ W)
    (hlt :
      foldMin (magnitudeGrid sqrtF gradientX gradientY H W)
        (get2D (magnitudeGrid sqrtF gradientX gradientY H W) 0 0) <
      foldMax (magnitudeGrid sqrtF gradientX gradientY H W)
        (get2D (magnitudeGrid sqrtF gradientX gradientY H W) 0 0)) :
    combineAndNormalize sqrtF gradientX gradientY =
      some ((magnitudeGrid sqrtF gradientX gradientY H W).map fun row =>
        row.map fun e =>
          255 * (e -
            foldMin (magnitudeGrid sqrtF gradientX gradientY H W)
              (get2D (magnitudeGrid sqrtF gradientX gradientY H W) 0 0)) /
            (foldMax (magnitudeGrid sqrtF gradientX gradientY H W)
              (get2D (magnitudeGrid sqrtF gradientX gradientY H W) 0 0) -
             foldMin (magnitudeGrid sqrtF gradientX gradientY H W)
              (get2D (magnitudeGrid sqrtF gradientX gradientY H W) 0 0))) ∧
    (∀ i j, i < H → j < W →
      get2D (magnitudeGrid sqrtF gradientX gradientY H W) i j =
        sqrtF (get2D gradientX i j * get2D gradientX i j +
          get2D gradientY i j * get2D gradientY i j)) ∧
    (∀ i j, i < H → j < W →
      get2D ((magnitudeGrid sqrtF gradientX gradientY H W).map fun row =>
        row.map fun e =>
          255 * (e -
            foldMin (magnitudeGrid sqrtF gradientX gradientY H W)
              (get2D (magnitudeGrid sqrtF gradientX gradientY H W) 0 0)) /
            (foldMax (magnitudeGrid sqrtF gradientX gradientY H W)
              (get2D (magnitudeGrid sqrtF gradientX gradientY H W) 0 0) -
             foldMin (magnitudeGrid sqrtF gradientX gradientY H W)
              (get2D (magnitudeGrid sqrtF gradientX gradientY H W) 0 0))) i j =
        255 * (get2D (magnitudeGrid sqrtF gradientX gradientY H W) i j -
            foldMin (magnitudeGrid sqrtF gradientX gradientY H W)
              (get2D (magnitudeGrid sqrtF gradientX gradientY H W) 0 0)) /
          (foldMax (magnitudeGrid sqrtF gradientX gradientY H W)
              (get2D (magnitudeGrid sqrtF gradientX gradientY H W) 0 0) -
           foldMin (magnitudeGrid sqrtF gradientX gradientY H W)
              (get2D (magnitudeGrid sqrtF gradientX gradientY H W) 0 0))) ∧
    (∀ i j, i < H → j < W →
      foldMin (magnitudeGrid sqrtF gradientX gradientY H W)
          (get2D (magnitudeGrid sqrtF gradientX gradientY H W) 0 0) ≤
        get2D (magnitudeGrid sqrtF gradientX gradientY H W) i j ∧
      get2D (magnitudeGrid sqrtF gradientX gradientY H W) i j ≤
        foldMax (magnitudeGrid sqrtF gradientX gradientY H W)
          (get2D (magnitudeGrid sqrtF gradientX gradientY H W) 0 0)) ∧
    (∃ i, i < H ∧ ∃ j, j < W ∧
      foldMin (magnitudeGrid sqrtF gradientX gradientY H W)
          (get2D (magnitudeGrid sqrtF gradientX gradientY H W) 0 0) =
        get2D (magnitudeGrid sqrtF gradientX gradientY H W) i j) ∧
    (∃ i, i < H ∧ ∃ j, j < W ∧
      foldMax (magnitudeGrid sqrtF gradientX gradientY H W)
          (get2D (magnitudeGrid sqrtF gradientX gradientY H W) 0 0) =
        get2D (magnitudeGrid sqrtF gradientX gradientY H W) i j) := by
  set A := magnitudeGrid sqrtF gradientX gradientY H W with hA
  set e00 := get2D A 0 0 with he00
  set mn := foldMin A e00 with hmn
  set mx := foldMax A e00 with hmx
  have hAlen : A.length = H := by rw [hA]; unfold magnitudeGrid; exact length_tab
  have hArow : ∀ i, i < H → (A.getD i []).length = W := by
    intro i hi
    rw [hA]
    unfold magnitudeGrid
    exact rowlen_tab hi
  have hcell : ∀ i j, i < H → j < W →
      get2D A i j =
        sqrtF (get2D gradientX i j * get2D gradientX i j +
          get2D gradientY i j * get2D gradientY i j) := by
    intro i j hi hj
    rw [hA]
    unfold magnitudeGrid
    exact get2D_tab hi hj
  have hbound : ∀ i j, i < H → j < W → mn ≤ get2D A i j ∧ get2D A i j ≤ mx := by
    intro i j hi hj
    have hi' : i < A.length := by omega
    have hj' : j < (A.getD i []).length := by rw [hArow i hi]; exact hj
    have hr : A.getD i [] ∈ A := by
      rw [List.getD_eq_getElem _ _ hi']
      exact List.getElem_mem _
    have he : get2D A i j ∈ A.getD i [] := by
      unfold get2D
      rw [List.getD_eq_getElem _ _ hj']
      exact List.getElem_mem _
    exact ⟨foldMin_le_cell A hr he e00, foldMax_ge_cell A hr he e00⟩
  have hattain : ∀ v : ℚ,
      (v = e00 ∨ ∃ r ∈ A, v ∈ r) →
      ∃ i, i < H ∧ ∃ j, j < W ∧ v = get2D A i j := by
    intro v hv
    rcases hv with hv | ⟨r, hrA, hvr⟩
    · exact ⟨0, hH, 0, hW, hv⟩
    · have hrA' : r ∈ tab H W fun i j =>
          sqrtF (get2D gradientX i j * get2D gradientX i j +
            get2D gradientY i j * get2D gradientY i j) := by
        rw [hA] at hrA
        unfold magnitudeGrid at hrA
        exact hrA
      obtain ⟨i, hi, j, hj, hveq⟩ := mem_tab_index hrA' hvr
      exact ⟨i, hi, j, hj, by rw [hveq, hcell i j hi hj]⟩
  refine ⟨?_, hcell, ?_, hbound, ?_, ?_⟩
  · have hH' : 0 < gradientX.length := by rw [hx.1]; exact hH
    unfold combineAndNormalize
    rw [get?_eq_some_getD [] hH']
    dsimp only
    rw [hx.1, rect_rowlen hx hH, ← hA,
      get2?_eq_some (by omega) (by rw [hArow 0 hH]; exact hW), ← he00]
    dsimp only
    rw [← hmn, ← hmx, if_neg (sub_ne_zero.mpr (ne_of_gt hlt))]
  · intro i j hi hj
    have hmap :
        (A.map fun row => row.map fun e => 255 * (e - mn) / (mx - mn)) =
        tab H W fun i j =>
          255 * ((fun i j =>
            sqrtF (get2D gradientX i j * get2D gradientX i j +
              get2D gradientY i j * get2D gradientY i j)) i j - mn) /
            (mx - mn) := by
      rw [hA]
      unfold magnitudeGrid
      exact tab_map H W _ _
    rw [hmap, get2D_tab hi hj, hcell i j hi hj]
  · exact hattain mn (foldMin_cases A e00)
  · exact hattain mx (foldMax_cases A e00)

theorem combiner_normalizes_witness :
    combineAndNormalize id [[0, 1]] [[0, 0]] =
      some ((magnitudeGrid id [[0, 1]] [[0, 0]] 1 2).map fun row =>
        row.map fun e =>
          255 * (e -
            foldMin (magnitudeGrid id [[0, 1]] [[0, 0]] 1 2)
              (get2D (magnitudeGrid id [[0, 1]] [[0, 0]] 1 2) 0 0)) /
            (foldMax (magnitudeGrid id [[0, 1]] [[0, 0]] 1 2)
              (get2D (magnitudeGrid id [[0, 1]] [[0, 0]] 1 2) 0 0) -
             foldMin (magnitudeGrid id [[0, 1]] [[0, 0]] 1 2)
              (get2D (magnitudeGrid id [[0, 1]] [[0, 0]] 1 2) 0 0))) ∧
    (∀ i j, i < 1 → j < 2 →
      get2D (magnitudeGrid id [[0, 1]] [[0, 0]] 1 2) i j =
        id (get2D [[(0 : ℚ), 1]] i j * get2D [[(0 : ℚ), 1]] i j +
          get2D [[(0 : ℚ), 0]] i j * get2D [[(0 : ℚ), 0]] i j)) ∧
    (∀ i j, i < 1 → j < 2 →
      get2D ((magnitudeGrid id [[0, 1]] [[0, 0]] 1 2).map fun row =>
        row.map fun e =>
          255 * (e -
            foldMin (magnitudeGrid id [[0, 1]] [[0, 0]] 1 2)
              (get2D (magnitudeGrid id [[0, 1]] [[0, 0]] 1 2) 0 0)) /
            (foldMax (magnitudeGrid id [[0, 1]] [[0, 0]] 1 2)
              (get2D (magnitudeGrid id [[0, 1]] [[0, 0]] 1 2) 0 0) -
             foldMin (magnitudeGrid id [[0, 1]] [[0, 0]] 1 2)
              (get2D (magnitudeGrid id [[0, 1]] [[0, 0]] 1 2) 0 0))) i j =
        255 * (get2D (magnitudeGrid id [[0, 1]] [[0, 0]] 1 2) i j -
            foldMin (magnitudeGrid id [[0, 1]] [[0, 0]] 1 2)
              (get2D (magnitudeGrid id [[0, 1]] [[0, 0]] 1 2) 0 0)) /
          (foldMax (magnitudeGrid id [[0, 1]] [[0, 0]] 1 2)
              (get2D (magnitudeGrid id [[0, 1]] [[0, 0]] 1 2) 0 0) -
           foldMin (magnitudeGrid id [[0, 1]] [[0, 0]] 1 2)
              (get2D (magnitudeGrid id [[0, 1]] [[0, 0]] 1 2) 0 0))) ∧
    (∀ i j, i < 1 → j < 2 →
      foldMin (magnitudeGrid id [[0, 1]] [[0, 0]] 1 2)
          (get2D (magnitudeGrid id [[0, 1]] [[0, 0]] 1 2) 0 0) ≤
        get2D (magnitudeGrid id [[0, 1]] [[0, 0]] 1 2) i j ∧
      get2D (magnitudeGrid id [[0, 1]] [[0, 0]] 1 2) i j ≤
        foldMax (magnitudeGrid id [[0, 1]] [[0, 0]] 1 2)
          (get2D (magnitudeGrid id [[0, 1]] [[0, 0]] 1 2) 0 0)) ∧
    (∃ i, i < 1 ∧ ∃ j, j < 2 ∧
      foldMin (magnitudeGrid id [[0, 1]] [[0, 0]] 1 2)
          (get2D (magnitudeGrid id [[0, 1]] [[0, 0]] 1 2) 0 0) =
        get2D (magnitudeGrid id [[0, 1]] [[0, 0]] 1 2) i j) ∧
    (∃ i, i < 1 ∧ ∃ j, j < 2 ∧
      foldMax (magnitudeGrid id [[0, 1]] [[0, 0]] 1 2)
          (get2D (magnitudeGrid id [[0, 1]] [[0, 0]] 1 2) 0 0) =
        get2D (magnitudeGrid id [[0, 1]] [[0, 0]] 1 2) i j) :=
  combiner_normalizes id (by decide) (by decide) (by decide) (by decide)
    (by norm_num [magnitudeGrid, tab, get2D, foldMin, foldMax,
      List.range_succ])

/-- C8 (counterexample): the claim says a cell above 255 quantizes to 255.
The code converts with Go's `uint8(f)`, which does not clamp: the cell
`300.0` quantizes to `44` (`300 mod 256`), not `255`. -/
theorem quantize_no_clamp :
    float64ArrayToImage [[(300 : ℚ)]] = some [[44]] ∧ (44 : ℤ) ≠ 255 := by
  constructor
  · decide
  · decide

/-- C8 (amended): each cell is truncated toward zero and reduced modulo 256
(Go's float-to-uint8 conversion; out-of-range values are
implementation-defined by the Go spec and wrap on mainstream gc targets,
e.g. `300 ↦ 44`): cells already in `[0, 256)` are truncated (floor), but
out-of-range cells are not clamped. -/
theorem quantize_truncates_mod256 {data : Grid ℚ} {H W : ℕ}
    (hdata : Rectangular data H W) (hH : 1 ≤ H) :
    float64ArrayToImage data =
      some (tab H W fun y x => goUint8 (get2D data y x)) ∧
    Rectangular (tab H W fun y x => goUint8 (get2D data y x)) H W ∧
    (∀ y x, y < H → x < W →
      get2D (tab H W fun y x => goUint8 (get2D data y x)) y x =
        goUint8 (get2D data y x)) ∧
    (∀ q : ℚ, 0 ≤ q → q < 256 → goUint8 q = ⌊q⌋) ∧
    goUint8 300 = 44 := by
  refine ⟨?_, rect_tab, ?_, ?_, by decide⟩
  · have hH' : 0 < data.length := by rw [hdata.1]; exact hH
    unfold float64ArrayToImage
    rw [get?_eq_some_getD [] hH']
    dsimp only
    rw [hdata.1, rect_rowlen hdata hH]
  · intro y x hy hx
    exact get2D_tab hy hx
  · intro q h1 h2
    unfold goUint8 truncQ
    rw [if_neg (not_lt.mpr h1)]
    exact Int.emod_eq_of_lt (Int.floor_nonneg.mpr h1)
      (Int.floor_lt.mpr (by exact_mod_cast h2))

theorem quantize_truncates_mod256_witness :
    float64ArrayToImage [[(3 : ℚ)]] =
      some (tab 1 1 fun y x => goUint8 (get2D [[(3 : ℚ)]] y x)) ∧
    Rectangular (tab 1 1 fun y x => goUint8 (get2D [[(3 : ℚ)]] y x)) 1 1 ∧
    (∀ y x, y < 1 → x < 1 →
      get2D (tab 1 1 fun y x => goUint8 (get2D [[(3 : ℚ)]] y x)) y x =
        goUint8 (get2D [[(3 : ℚ)]] y x)) ∧
    (∀ q : ℚ, 0 ≤ q → q < 256 → goUint8 q = ⌊q⌋) ∧
    goUint8 300 = 44 :=
  quantize_truncates_mod256 (by decide) (by decide)

/-- C9: convolving a uniform grid (all cells `c`) with a kernel whose
weights sum to `0` yields `0` at every interior cell — every cell whose
kernel window lies entirely inside the original image region. -/
theorem uniform_zero_interior {image kernel : Grid ℚ} {H W kH kW : ℕ}
    {c : ℚ} (himg : Rectangular image H W) (hker : Rectangular kernel kH kW)
    (hH : 1 ≤ H) (hW : 1 ≤ W) (hkH : kH % 2 = 1) (hkW : kW % 2 = 1)
    (huni : ∀ i j, i < H → j < W → get2D image i j = c)
    (hsum : ∑ a ∈ Finset.range kH, ∑ b ∈ Finset.range kW,
      get2D kernel a b = 0)
    {i j : ℕ} (hi1 : kH / 2 ≤ i) (hi2 : i + kH ≤ kH / 2 + H)
    (hj1 : kW / 2 ≤ j) (hj2 : j + kW ≤ kW / 2 + W) :
    convolve image kernel = some (convGrid image kernel H W kH kW) ∧
    get2D (convGrid image kernel H W kH kW) i j = 0 := by
  refine ⟨convolve_eq_some himg hker hH (by omega), ?_⟩
  have hi : i < H := by omega
  have hj : j < W := by omega
  unfold convGrid
  rw [get2D_tab hi hj, sumCellFun_eq_sum]
  have hterm : ∀ a ∈ Finset.range kH, ∀ b ∈ Finset.range kW,
      get2D (padFun image H W (kH / 2) (kW / 2)) (i + a) (j + b) *
        get2D kernel a b = c * get2D kernel a b := by
    intro a ha b hb
    have ha' : a < kH := Finset.mem_range.mp ha
    have hb' : b < kW := Finset.mem_range.mp hb
    rw [get2D_padFun]
    unfold padVal
    rw [if_pos (by omega), huni _ _ (by omega) (by omega)]
  calc
    ∑ a ∈ Finset.range kH, ∑ b ∈ Finset.range kW,
        get2D (padFun image H W (kH / 2) (kW / 2)) (i + a) (j + b) *
          get2D kernel a b
      = ∑ a ∈ Finset.range kH, ∑ b ∈ Finset.range kW,
          c * get2D kernel a b :=
        Finset.sum_congr rfl fun a ha =>
          Finset.sum_congr rfl fun b hb => hterm a ha b hb
    _ = c * ∑ a ∈ Finset.range kH, ∑ b ∈ Finset.range kW,
          get2D kernel a b := by
        rw [Finset.mul_sum]
        exact Finset.sum_congr rfl fun a _ => (Finset.mul_sum _ _ _).symm
    _ = 0 := by rw [hsum, mul_zero]

theorem uniform_zero_interior_witness :
    convolve (α := ℚ) [[1, 1, 1], [1, 1, 1], [1, 1, 1]] sobelX =
      some (convGrid [[1, 1, 1], [1, 1, 1], [1, 1, 1]] sobelX 3 3 3 3) ∧
    get2D (convGrid [[(1 : ℚ), 1, 1], [1, 1, 1], [1, 1, 1]] sobelX 3 3 3 3)
      1 1 = 0 :=
  uniform_zero_interior (c := 1) (by decide) (by decide) (by decide)
    (by decide) (by decide) (by decide)
    (by intro i j hi hj; interval_cases i <;> interval_cases j <;> decide)
    (by norm_num [sobelX, get2D, Finset.sum_range_succ])
    (by decide) (by decide) (by decide) (by decide)

end ClaimTheorems

end ELP
